import Mathlib

/-!
# Verification of the ina219 power-telemetry collector (`main.py`)

Shallow embedding of the sampling-and-logging engine of `main.py`:

* the on-disk log file is modelled as `Option (List Row)` — `none` when no
  file exists at the path, `some rows` otherwise, where a `Row` is the list
  of comma-separated fields of one text line (`Row := List String`);
* Python machine-level values: `int` is `Int`, the float measurements
  (power/voltage/current) are opaque payloads carried as `Int` (no claim
  computes with them), and the float epoch timestamp is carried at
  microsecond precision as a `Nat` (microseconds since the epoch), which is
  the precision `datetime.fromtimestamp`/`%f` retains;
* fallible operations (`int(...)` parsing, uncaught exceptions) return
  `Option`/`Except`;
* the unbounded `while True` polling loop is driven by an explicit trace of
  events (successful sensor visits, a `DeviceRangeError`, or an
  asynchronously delivered `KeyboardInterrupt`) plus a fuel parameter.
-/

namespace SensorIna219

/-! ## Decimal rendering and parsing

`csv.writer` stringifies the `run_id` field with Python `str(int)`, and
`get_test_id` reads it back with Python `int(str)`.  Both are modelled here.
-/

/-- Whitespace stripped by Python `int(str)` (the common ASCII cases). -/
def isPyWs (c : Char) : Bool :=
  c = ' ' || c = '\t' || c = '\n' || c = '\r'

/-- Decimal digits of `n`, least-significant first; the first argument is
fuel (`n` itself suffices), keeping the definition structurally recursive and
hence kernel-computable. -/
def natDigitsRevAux : Nat → Nat → List Char
  | _, 0 => []
  | 0, _ + 1 => []
  | fuel + 1, n + 1 =>
    Nat.digitChar ((n + 1) % 10) :: natDigitsRevAux fuel ((n + 1) / 10)

def natDigitsRev (n : Nat) : List Char := natDigitsRevAux n n

/-- The character list of Python `str(n)` for a nonnegative `n`. -/
def natChars (n : Nat) : List Char :=
  if n = 0 then ['0'] else (natDigitsRev n).reverse

def natStr (n : Nat) : String := ⟨natChars n⟩

/-- Model of Python `str(i)` for an `int`. -/
def intStr (i : Int) : String :=
  if i < 0 then ⟨'-' :: natChars i.natAbs⟩ else natStr i.natAbs

def digitVal (c : Char) : Nat := c.toNat - 48

/-- Numeric value of a digit list, least-significant first. -/
def valOfDigitsRev : List Char → Nat
  | [] => 0
  | c :: cs => digitVal c + 10 * valOfDigitsRev cs

/-- Parse a nonempty list of decimal digits (most-significant first). -/
def parseNatDigits (cs : List Char) : Option Nat :=
  if cs = [] then none
  else if cs.all Char.isDigit then some (valOfDigitsRev cs.reverse)
  else none

/-- Strip leading and trailing whitespace, as Python `int(str)` does. -/
def stripPyWs (cs : List Char) : List Char :=
  ((cs.dropWhile isPyWs).reverse.dropWhile isPyWs).reverse

/-- Model of Python `int(s)`: optional surrounding whitespace, an optional
sign, then decimal digits; anything else raises `ValueError`, modelled as
`none`. -/
def pyIntParse (s : String) : Option Int :=
  match stripPyWs s.data with
  | [] => none
  | c :: rest =>
    if c = '-' then (parseNatDigits rest).map (fun n => -(n : Int))
    else if c = '+' then (parseNatDigits rest).map (fun n => (n : Int))
    else (parseNatDigits (c :: rest)).map (fun n => (n : Int))

/-! ### Round-trip lemmas -/

theorem digitVal_digitChar {d : Nat} (h : d < 10) :
    digitVal (Nat.digitChar d) = d := by
  interval_cases d <;> rfl

theorem isDigit_digitChar {d : Nat} (h : d < 10) :
    (Nat.digitChar d).isDigit = true := by
  interval_cases d <;> rfl

theorem natDigitsRevAux_val : ∀ (fuel n : Nat), n ≤ fuel →
    valOfDigitsRev (natDigitsRevAux fuel n) = n := by
  intro fuel
  induction fuel with
  | zero =>
    intro n hn
    interval_cases n
    rfl
  | succ f ih =>
    intro n hn
    match n with
    | 0 => rfl
    | m + 1 =>
      have hdiv : (m + 1) / 10 ≤ f := by omega
      simp only [natDigitsRevAux, valOfDigitsRev, ih _ hdiv,
        digitVal_digitChar (Nat.mod_lt _ (by omega))]
      omega

theorem natDigitsRevAux_all_digit : ∀ (fuel n : Nat),
    (natDigitsRevAux fuel n).all Char.isDigit = true := by
  intro fuel
  induction fuel with
  | zero =>
    intro n
    match n with
    | 0 => rfl
    | _ + 1 => rfl
  | succ f ih =>
    intro n
    match n with
    | 0 => rfl
    | m + 1 =>
      simp only [natDigitsRevAux, List.all_cons, ih, Bool.and_true]
      exact isDigit_digitChar (Nat.mod_lt _ (by omega))

theorem natDigitsRevAux_ne_nil (fuel m : Nat) :
    natDigitsRevAux (fuel + 1) (m + 1) ≠ [] := by
  simp [natDigitsRevAux]

theorem natDigitsRevAux_length_le : ∀ (fuel n k : Nat), n < 10 ^ k →
    (natDigitsRevAux fuel n).length ≤ k := by
  intro fuel
  induction fuel with
  | zero =>
    intro n k _
    match n with
    | 0 => simp [natDigitsRevAux]
    | _ + 1 => simp [natDigitsRevAux]
  | succ f ih =>
    intro n k hk
    match n with
    | 0 => simp [natDigitsRevAux]
    | m + 1 =>
      match k with
      | 0 => omega
      | k + 1 =>
        have hdiv : (m + 1) / 10 < 10 ^ k := by
          have hdvd : (10:Nat) ∣ 10 ^ k * 10 := ⟨10 ^ k, by ring⟩
          have h2 : (m + 1) / 10 < 10 ^ k * 10 / 10 :=
            Nat.div_lt_div_of_lt_of_dvd hdvd (by rw [← pow_succ]; exact hk)
          omega
        simp only [natDigitsRev, natDigitsRevAux, List.length_cons]
        have := ih ((m + 1) / 10) k hdiv
        omega

theorem natChars_all_digit (n : Nat) : (natChars n).all Char.isDigit = true := by
  unfold natChars
  split
  · rfl
  · rw [List.all_eq_true] at *
    intro c hc
    exact (List.all_eq_true.mp (natDigitsRevAux_all_digit n n)) c
      (List.mem_reverse.mp hc)

theorem natChars_ne_nil (n : Nat) : natChars n ≠ [] := by
  unfold natChars
  split
  · decide
  · intro h
    rw [List.reverse_eq_nil_iff] at h
    rename_i hn
    match n, hn with
    | m + 1, _ => exact natDigitsRevAux_ne_nil m m h

theorem natChars_length_le {n k : Nat} (hk : 1 ≤ k) (h : n < 10 ^ k) :
    (natChars n).length ≤ k := by
  unfold natChars
  split
  · simpa using hk
  · rw [List.length_reverse]
    exact natDigitsRevAux_length_le n n k h

/-- Digits are not whitespace. -/
theorem not_isPyWs_of_isDigit {c : Char} (h : c.isDigit = true) :
    isPyWs c = false := by
  by_contra hne
  rw [Bool.not_eq_false] at hne
  unfold isPyWs at hne
  simp only [Bool.or_eq_true, decide_eq_true_eq] at hne
  rcases hne with ((hc | hc) | hc) | hc <;> subst hc <;> exact absurd h (by decide)

theorem dropWhile_eq_self_of_all {p : Char → Bool} :
    ∀ (cs : List Char), (∀ c ∈ cs, p c = false) → cs.dropWhile p = cs := by
  intro cs h
  match cs with
  | [] => rfl
  | c :: rest =>
    rw [List.dropWhile_cons_of_neg]
    simp [h c (by simp)]

theorem stripPyWs_of_all_digit {cs : List Char}
    (h : cs.all Char.isDigit = true) : stripPyWs cs = cs := by
  have hws : ∀ c ∈ cs, isPyWs c = false := by
    intro c hc
    exact not_isPyWs_of_isDigit ((List.all_eq_true.mp h) c hc)
  unfold stripPyWs
  rw [dropWhile_eq_self_of_all cs hws,
    dropWhile_eq_self_of_all cs.reverse (by
      intro c hc; exact hws c (List.mem_reverse.mp hc)),
    List.reverse_reverse]

theorem parseNatDigits_natChars (n : Nat) :
    parseNatDigits (natChars n) = some n := by
  unfold parseNatDigits
  rw [if_neg (natChars_ne_nil n), if_pos (natChars_all_digit n)]
  unfold natChars
  split
  · rename_i h
    subst h
    rfl
  · rw [List.reverse_reverse]
    exact congrArg some (natDigitsRevAux_val n n le_rfl)

theorem head_isDigit_of_all {c : Char} {rest : List Char}
    (h : (c :: rest).all Char.isDigit = true) : c.isDigit = true := by
  simp only [List.all_cons, Bool.and_eq_true] at h
  exact h.1

theorem pyIntParse_natStr (n : Nat) : pyIntParse (natStr n) = some (n : Int) := by
  unfold pyIntParse natStr
  have hall := natChars_all_digit n
  show (match stripPyWs (natChars n) with
    | [] => none
    | c :: rest =>
      if c = '-' then (parseNatDigits rest).map (fun n => -(n : Int))
      else if c = '+' then (parseNatDigits rest).map (fun n => (n : Int))
      else (parseNatDigits (c :: rest)).map (fun n => (n : Int))) = some (n : Int)
  rw [stripPyWs_of_all_digit hall]
  match hnc : natChars n with
  | [] => exact absurd hnc (natChars_ne_nil n)
  | c :: rest =>
    rw [hnc] at hall
    have hd := head_isDigit_of_all hall
    have hne : c ≠ '-' := by
      intro h
      exact absurd (h ▸ hd) (by decide)
    have hne' : c ≠ '+' := by
      intro h
      exact absurd (h ▸ hd) (by decide)
    simp only [if_neg hne, if_neg hne']
    rw [← hnc, parseNatDigits_natChars]
    rfl

theorem pyIntParse_intStr (i : Int) : pyIntParse (intStr i) = some i := by
  unfold intStr
  split_ifs with hneg
  · unfold pyIntParse
    have hall := natChars_all_digit i.natAbs
    have hstrip : stripPyWs ('-' :: natChars i.natAbs) = '-' :: natChars i.natAbs := by
      unfold stripPyWs
      have hws : ∀ c ∈ '-' :: natChars i.natAbs, isPyWs c = false := by
        intro c hc
        rcases List.mem_cons.mp hc with h | h
        · subst h; rfl
        · exact not_isPyWs_of_isDigit ((List.all_eq_true.mp hall) c h)
      rw [dropWhile_eq_self_of_all _ hws,
        dropWhile_eq_self_of_all _ (by
          intro c hc; exact hws c (List.mem_reverse.mp hc)),
        List.reverse_reverse]
    show (match stripPyWs ('-' :: natChars i.natAbs) with
      | [] => none
      | c :: rest =>
        if c = '-' then (parseNatDigits rest).map (fun n => -(n : Int))
        else if c = '+' then (parseNatDigits rest).map (fun n => (n : Int))
        else (parseNatDigits (c :: rest)).map (fun n => (n : Int))) = some i
    rw [hstrip]
    show (if '-' = '-' then (parseNatDigits (natChars i.natAbs)).map (fun n => -(n : Int))
      else if '-' = '+' then (parseNatDigits (natChars i.natAbs)).map (fun n => (n : Int))
      else (parseNatDigits ('-' :: natChars i.natAbs)).map (fun n => (n : Int))) = some i
    rw [if_pos rfl, parseNatDigits_natChars]
    show some (-(i.natAbs : Int)) = some i
    congr 1
    omega
  · rw [pyIntParse_natStr]
    congr 1
    omega

/-! ## Datetime model

`convert_to_datetime` in `main.py` is
`datetime.datetime.fromtimestamp(ts).strftime("%Y-%m-%dT%H:%M:%S.%f")`.
Timestamps are nonnegative epoch times carried at microsecond precision
(`ts : Nat` counts microseconds since 1970-01-01); `fromtimestamp` is the
standard library's civil-calendar conversion (modelled with UTC offset 0,
via the usual days-to-civil algorithm), and the format string is transcribed
field by field with zero padding. -/

structure PyDateTime where
  year : Nat
  month : Nat
  day : Nat
  hour : Nat
  minute : Nat
  second : Nat
  microsecond : Nat
deriving DecidableEq, Repr

/-- Civil date (year, month, day) from a count of days since 1970-01-01. -/
def civilFromDays (z : Nat) : Nat × Nat × Nat :=
  let zz := z + 719468
  let era := zz / 146097
  let doe := zz % 146097
  let yoe := (doe - doe / 1460 + doe / 36524 - doe / 146096) / 365
  let doy := doe - (365 * yoe + yoe / 4 - yoe / 100)
  let mp := (5 * doy + 2) / 153
  let d := doy - (153 * mp + 2) / 5 + 1
  let m := if mp < 10 then mp + 3 else mp - 9
  let y := yoe + era * 400
  (if m ≤ 2 then y + 1 else y, m, d)

/-- Model of `datetime.datetime.fromtimestamp` on a nonnegative timestamp
given in microseconds since the epoch. -/
def fromtimestamp (ts : Nat) : PyDateTime :=
  let us := ts % 1000000
  let totsec := ts / 1000000
  let days := totsec / 86400
  let sod := totsec % 86400
  let ymd := civilFromDays days
  ⟨ymd.1, ymd.2.1, ymd.2.2, sod / 3600, sod % 3600 / 60, sod % 60, us⟩

/-- Zero-pad the decimal rendering of `n` to width `w` (`%02d`-style). -/
def padChars (w n : Nat) : List Char :=
  List.replicate (w - (natChars n).length) '0' ++ natChars n

/-- Model of `strftime("%Y-%m-%dT%H:%M:%S.%f")`. -/
def strftimeIso (t : PyDateTime) : String :=
  ⟨padChars 4 t.year ++ '-' :: (padChars 2 t.month ++ '-' :: (padChars 2 t.day ++
    'T' :: (padChars 2 t.hour ++ ':' :: (padChars 2 t.minute ++
    ':' :: (padChars 2 t.second ++ '.' :: padChars 6 t.microsecond)))))⟩

/-- `convert_to_datetime` from `main.py`. -/
def convert_to_datetime (ts : Nat) : String :=
  strftimeIso (fromtimestamp ts)

/-- Largest representable microsecond timestamp: one microsecond before
year 10000 (`datetime.max` territory). -/
def maxTsMicro : Nat := 253402300799999999

/-- The structural property "YYYY-MM-DDTHH:MM:SS.ffffff": four digits, a
dash, two digits, a dash, two digits, a 'T', two digits, a colon, two
digits, a colon, two digits, a dot, six digits. -/
def IsoShape (s : String) : Prop :=
  ∃ y mo d h mi se fr : List Char,
    s.data = y ++ '-' :: (mo ++ '-' :: (d ++ 'T' :: (h ++ ':' :: (mi ++
      ':' :: (se ++ '.' :: fr))))) ∧
    y.length = 4 ∧ mo.length = 2 ∧ d.length = 2 ∧ h.length = 2 ∧
    mi.length = 2 ∧ se.length = 2 ∧ fr.length = 6 ∧
    (y ++ mo ++ d ++ h ++ mi ++ se ++ fr).all Char.isDigit = true

theorem civilFromDays_bounds {z : Nat} (hz : z ≤ 2932896) :
    (civilFromDays z).1 ≤ 9999 ∧
    1 ≤ (civilFromDays z).2.1 ∧ (civilFromDays z).2.1 ≤ 12 ∧
    1 ≤ (civilFromDays z).2.2 ∧ (civilFromDays z).2.2 ≤ 31 := by
  unfold civilFromDays
  dsimp only
  split_ifs <;> omega

theorem fromtimestamp_bounds {ts : Nat} (hts : ts ≤ maxTsMicro) :
    (fromtimestamp ts).year ≤ 9999 ∧
    (fromtimestamp ts).month ≤ 12 ∧
    (fromtimestamp ts).day ≤ 31 ∧
    (fromtimestamp ts).hour ≤ 23 ∧
    (fromtimestamp ts).minute ≤ 59 ∧
    (fromtimestamp ts).second ≤ 59 ∧
    (fromtimestamp ts).microsecond ≤ 999999 := by
  have hdays : ts / 1000000 / 86400 ≤ 2932896 := by
    unfold maxTsMicro at hts
    omega
  have hciv := civilFromDays_bounds hdays
  unfold fromtimestamp
  dsimp only
  refine ⟨hciv.1, hciv.2.2.1, hciv.2.2.2.2, ?_, ?_, ?_, ?_⟩ <;> omega

theorem padChars_length {w n : Nat} (hw : 1 ≤ w) (h : n < 10 ^ w) :
    (padChars w n).length = w := by
  unfold padChars
  rw [List.length_append, List.length_replicate]
  have := natChars_length_le hw h
  omega

theorem padChars_all_digit (w n : Nat) :
    (padChars w n).all Char.isDigit = true := by
  unfold padChars
  rw [List.all_append, natChars_all_digit, Bool.and_true]
  rw [List.all_eq_true]
  intro c hc
  rw [List.eq_of_mem_replicate hc]
  decide

theorem isoShape_strftimeIso {t : PyDateTime}
    (hy : t.year ≤ 9999) (hmo : t.month ≤ 99) (hd : t.day ≤ 99)
    (hh : t.hour ≤ 99) (hmi : t.minute ≤ 99) (hs : t.second ≤ 99)
    (hus : t.microsecond ≤ 999999) :
    IsoShape (strftimeIso t) := by
  refine ⟨padChars 4 t.year, padChars 2 t.month, padChars 2 t.day,
    padChars 2 t.hour, padChars 2 t.minute, padChars 2 t.second,
    padChars 6 t.microsecond, rfl, ?_, ?_, ?_, ?_, ?_, ?_, ?_, ?_⟩
  · exact padChars_length (by omega) (by omega)
  · exact padChars_length (by omega) (by omega)
  · exact padChars_length (by omega) (by omega)
  · exact padChars_length (by omega) (by omega)
  · exact padChars_length (by omega) (by omega)
  · exact padChars_length (by omega) (by omega)
  · exact padChars_length (by omega) (by omega)
  · simp only [List.all_append, padChars_all_digit, Bool.and_true]

theorem isoShape_convert_to_datetime {ts : Nat} (hts : ts ≤ maxTsMicro) :
    IsoShape (convert_to_datetime ts) := by
  have hb := fromtimestamp_bounds hts
  exact isoShape_strftimeIso (by omega) (by omega) (by omega) (by omega)
    (by omega) (by omega) (by omega)

/-! ## Samples and the log file

A `Sample` is one appended tuple
`(i, sensor_label, ts, dt, power, supply_volt, current)`.  The float
measurements are opaque payloads (modelled as `Int`; no claim computes with
them), `ts` is the epoch timestamp in microseconds, and `dt` the string
computed from it by `convert_to_datetime`.

The on-disk file is `Option (List Row)`: `none` when `testpath.exists()` is
false, otherwise the list of text lines, each line viewed as its list of
comma-separated fields (`get_test_id` splits the last line on `","`;
`csv.writer` joins fields with `","`). -/

structure Sample where
  run_id : Int
  sensor_label : String
  ts : Nat
  dt : String
  power : Int
  supply_volt : Int
  current : Int
deriving DecidableEq, Repr

/-- One row of the file: its comma-separated fields. -/
abbrev Row := List String

/-- Rendering of the opaque float payloads by `csv.writer` (`str(float)` is
abstracted: no claim depends on its exact text). -/
def pyFloatStr (x : Int) : String := intStr x

/-- Rendering of the epoch-seconds float column (abstracted likewise). -/
def tsFieldStr (ts : Nat) : String := natStr ts

/-- The fields `csv.writer` emits for one sample, in the tuple order of
`samples.append((i, sensor_label, ts, dt, power, supply_volt, current))`. -/
def sampleToRow (s : Sample) : Row :=
  [intStr s.run_id, s.sensor_label, tsFieldStr s.ts, s.dt,
    pyFloatStr s.power, pyFloatStr s.supply_volt, pyFloatStr s.current]

/-- `csv_header` from `main.py`. -/
def csvHeader : Row :=
  ["test id", "sensor label", "timestamp epoch sec", "timestamp datetime",
    "power mW", "supply voltage V", "current mA"]

/-- Errors `get_test_id` can raise (both escape `main`'s `try`, which only
catches `KeyboardInterrupt` and `DeviceRangeError`, so both are fatal):
`emptyFile` is the `UnboundLocalError` when the file has no lines, and
`badIntField` the `ValueError` from `int(rid)` on a non-integer field. -/
inductive LogError where
  | emptyFile : LogError
  | badIntField : String → LogError
deriving DecidableEq, Repr

/-- `get_test_id` from `main.py`: `1` for a missing file; otherwise take the
last line, split on `","`, parse the first field as an `int`, and return it
plus one. -/
def get_test_id (file : Option (List Row)) : Except LogError Int :=
  match file with
  | none => .ok 1
  | some rows =>
    match rows.getLast? with
    | none => .error .emptyFile
    | some r =>
      match pyIntParse (r.headD "") with
      | none => .error (.badIntField (r.headD ""))
      | some n => .ok (n + 1)

/-- The file contents `write_to_csv` starts from: the header-only file it
creates when the path does not exist, or the existing rows. -/
def fileBase (hdr : Row) (file : Option (List Row)) : List Row :=
  match file with
  | none => [hdr]
  | some rows => rows

/-- `write_to_csv` from `main.py`: write the header first when (and only
when) the file does not exist, then append one row per sample, in order. -/
def write_to_csv (hdr : Row) (samples : List Sample) (file : Option (List Row)) :
    List Row :=
  fileBase hdr file ++ samples.map sampleToRow

/-- Necessary conditions for a row to be a valid Sample row of the persisted
format: seven fields, with an integer `run_id` in the first.  (A fully valid
row further requires float fields and the datetime shape; a row failing this
check already fails any such validity notion.) -/
def sampleRowShapeOk (r : Row) : Bool :=
  r.length = 7 && (pyIntParse (r.headD "")).isSome

/-! ## Sensor registry

`create_ina_map` builds `{test: create_ina(int(i2c_addr, 16)) for test,
i2c_addr in tests}`.  The dict comprehension assigns keys left to right:
a repeated label keeps its first position but is remapped to the handle of
its last occurrence.  A handle is identified by its parsed address
(`ina.configure()` and the shunt/bus parameters are device-side effects with
no bearing on registry structure). -/

structure INA219 where
  addr : Nat
deriving DecidableEq, Repr

/-- `create_ina` from `main.py` (device initialisation abstracted away). -/
def create_ina (i2c_address : Nat) : INA219 := ⟨i2c_address⟩

/-- Value of one hexadecimal digit. -/
def hexDigitVal (c : Char) : Option Nat :=
  if '0' ≤ c ∧ c ≤ '9' then some (c.toNat - 48)
  else if 'a' ≤ c ∧ c ≤ 'f' then some (c.toNat - 87)
  else if 'A' ≤ c ∧ c ≤ 'F' then some (c.toNat - 55)
  else none

def valOfHexRev : List Char → Option Nat
  | [] => some 0
  | c :: cs =>
    match hexDigitVal c, valOfHexRev cs with
    | some d, some v => some (d + 16 * v)
    | _, _ => none

/-- Model of Python `int(s, 16)` on the address strings: optional
whitespace, an optional `0x`/`0X` marker, then hex digits. -/
def pyHexParse (s : String) : Option Nat :=
  match stripPyWs s.data with
  | '0' :: 'x' :: rest => if rest = [] then none else valOfHexRev rest.reverse
  | '0' :: 'X' :: rest => if rest = [] then none else valOfHexRev rest.reverse
  | [] => none
  | cs => valOfHexRev cs.reverse

/-- Python `ValueError` from `int(i2c_addr, 16)` on a malformed address
(fatal at startup: nothing catches it). -/
inductive ConfigError where
  | badAddress : String → ConfigError
deriving DecidableEq, Repr

/-- One dict-comprehension assignment `d[k] = v`: an existing key keeps its
insertion position and gets the new value; a new key is appended. -/
def dictInsert (m : List (String × INA219)) (k : String) (v : INA219) :
    List (String × INA219) :=
  if m.any (fun p => p.1 = k) then
    m.map (fun p => if p.1 = k then (k, v) else p)
  else
    m ++ [(k, v)]

def create_ina_map_aux :
    List (String × String) → List (String × INA219) →
    Except ConfigError (List (String × INA219))
  | [], m => .ok m
  | (label, a) :: rest, m =>
    match pyHexParse a with
    | none => .error (.badAddress a)
    | some addr => create_ina_map_aux rest (dictInsert m label (create_ina addr))

/-- `create_ina_map` from `main.py`. -/
def create_ina_map (tests : List (String × String)) :
    Except ConfigError (List (String × INA219)) :=
  create_ina_map_aux tests []

/-- The address string of the last occurrence of label `k` in `tests`. -/
def lastAddrStr (tests : List (String × String)) (k : String) : Option String :=
  (tests.reverse.find? (fun p => p.1 = k)).map (fun p => p.2)

/-! ## The polling loop

The `while True` loop of `main` visits every registered sensor per round.
One sensor visit (`ts = time.time(); dt = ...; power = ina.power();
supply_volt = ina.supply_voltage(); current = ina.current();
samples.append(...)`) either completes and appends its sample, or one of the
reads raises `ina219.DeviceRangeError`, or the asynchronous
`KeyboardInterrupt` is delivered at this point (CPython may raise it between
any two bytecodes; delivery before the visit's `append` executes is the
granularity at which buffer states differ).  The loop is driven by a trace of
such events; a fuel parameter bounds the number of rounds examined, since the
source loop itself never terminates normally. -/

inductive Event where
  | reading : Nat → Int → Int → Int → Event
  | deviceRangeError : String → Event
  | keyboardInterrupt : Event
deriving DecidableEq, Repr

/-- The sample built by one completed sensor visit: `dt` is computed from
the captured `ts` by `convert_to_datetime`. -/
def mkSample (i : Int) (label : String) (ts : Nat) (p v c : Int) : Sample :=
  ⟨i, label, ts, convert_to_datetime ts, p, v, c⟩

/-- Result of one `for sensor_label, ina in ina_map.items()` pass. -/
inductive RoundRes where
  | done : List Event → List Sample → RoundRes
  | interrupted : List Sample → RoundRes
  | rangeFault : String → List Sample → RoundRes
  | starved : List Sample → RoundRes
deriving DecidableEq, Repr

/-- One round: visit the remaining sensors in registry order, appending each
completed visit's sample to the buffer.  `interrupted`/`rangeFault` abandon
the rest of the round with the buffer as accumulated so far; `starved` means
the event trace ended with the program still running. -/
def pollRound (i : Int) :
    List String → List Event → List Sample → RoundRes
  | [], evs, buf => .done evs buf
  | _ :: _, [], buf => .starved buf
  | label :: rest, ev :: evs, buf =>
    match ev with
    | .keyboardInterrupt => .interrupted buf
    | .deviceRangeError msg => .rangeFault msg buf
    | .reading ts p v c =>
      pollRound i rest evs (buf ++ [mkSample i label ts p v c])

/-- How the (never normally terminating) loop left the program. -/
inductive Outcome where
  | interrupted : List Sample → Outcome
  | rangeFault : String → List Sample → Outcome
  | starved : List Sample → Outcome
deriving DecidableEq, Repr

/-- The `while True` loop: run rounds, incrementing `i` once after each
completed round, until an exception escapes (or fuel/events run out,
reported as `starved`). -/
def runRounds (fuel : Nat) (labels : List String) (events : List Event)
    (i : Int) (buf : List Sample) : Outcome :=
  match fuel with
  | 0 => .starved buf
  | fuel + 1 =>
    match pollRound i labels events buf with
    | .done evs buf' => runRounds fuel labels evs (i + 1) buf'
    | .interrupted buf' => .interrupted buf'
    | .rangeFault msg buf' => .rangeFault msg buf'
    | .starved buf' => .starved buf'

/-- Final state of one process run: the exit status passed to `sys.exit`
and the on-disk file contents. -/
structure RunExit where
  exitCode : Nat
  file : Option (List Row)
deriving DecidableEq, Repr

/-- The supervisor (`main` after registry construction): compute the resume
id with `get_test_id` (its errors escape uncaught), loop, and on
`KeyboardInterrupt` flush the whole buffer via `write_to_csv` and exit 0,
while on `DeviceRangeError` exit 1 without touching the file.  `none` stands
for a run the finite trace did not finish. -/
def mainRun (labels : List String) (events : List Event)
    (initFile : Option (List Row)) (fuel : Nat) :
    Except LogError (Option RunExit) :=
  match get_test_id initFile with
  | .error e => .error e
  | .ok i0 =>
    match runRounds fuel labels events i0 [] with
    | .interrupted buf =>
      .ok (some ⟨0, some (write_to_csv csvHeader buf initFile)⟩)
    | .rangeFault _ _ => .ok (some ⟨1, initFile⟩)
    | .starved _ => .ok none

/-! ### Traces built from per-round readings -/

structure Reading where
  ts : Nat
  power : Int
  volt : Int
  curr : Int
deriving DecidableEq, Repr

def roundEvents (rs : List Reading) : List Event :=
  rs.map (fun r => .reading r.ts r.power r.volt r.curr)

/-- The samples one round produces from its readings, in registry order. -/
def roundSamples (i : Int) (labels : List String) (rs : List Reading) :
    List Sample :=
  (labels.zip rs).map (fun p => mkSample i p.1 p.2.ts p.2.power p.2.volt p.2.curr)

/-- The buffer accumulated by consecutive full rounds starting at id `i`. -/
def bufferOf (i : Int) (labels : List String) : List (List Reading) → List Sample
  | [] => []
  | rs :: rest => roundSamples i labels rs ++ bufferOf (i + 1) labels rest

/-- Trace of `rounds` full rounds followed by a cancellation signal at the
top of the next round. -/
def traceOfRounds (rounds : List (List Reading)) : List Event :=
  (rounds.map roundEvents).flatten ++ [Event.keyboardInterrupt]

/-! ### Loop lemmas -/

theorem pollRound_full : ∀ (labels : List String) (rs : List Reading)
    (i : Int) (buf : List Sample) (evs : List Event),
    rs.length = labels.length →
    pollRound i labels (roundEvents rs ++ evs) buf
      = .done evs (buf ++ roundSamples i labels rs) := by
  intro labels
  induction labels with
  | nil =>
    intro rs i buf evs hlen
    match rs, hlen with
    | [], _ => simp [pollRound, roundEvents, roundSamples]
  | cons l ls ih =>
    intro rs i buf evs hlen
    match rs with
    | r :: rs' =>
      show pollRound i ls (roundEvents rs' ++ evs)
          (buf ++ [mkSample i l r.ts r.power r.volt r.curr]) = _
      rw [ih rs' i (buf ++ [mkSample i l r.ts r.power r.volt r.curr]) evs (by
          simpa using hlen)]
      simp [roundSamples, List.zip_cons_cons, List.append_assoc]

theorem pollRound_interrupt_top (i : Int) (l : String) (ls : List String)
    (evs : List Event) (buf : List Sample) :
    pollRound i (l :: ls) (Event.keyboardInterrupt :: evs) buf
      = .interrupted buf := rfl

theorem pollRound_partial : ∀ (labels : List String) (rs : List Reading)
    (i : Int) (buf : List Sample) (evs : List Event),
    rs.length < labels.length →
    pollRound i labels (roundEvents rs ++ Event.keyboardInterrupt :: evs) buf
      = .interrupted (buf ++ roundSamples i labels rs) := by
  intro labels
  induction labels with
  | nil =>
    intro rs i buf evs hlen
    simp at hlen
  | cons l ls ih =>
    intro rs i buf evs hlen
    match rs with
    | [] => simp [roundEvents, roundSamples, pollRound]
    | r :: rs' =>
      show pollRound i ls (roundEvents rs' ++ Event.keyboardInterrupt :: evs)
          (buf ++ [mkSample i l r.ts r.power r.volt r.curr]) = _
      rw [ih rs' i (buf ++ [mkSample i l r.ts r.power r.volt r.curr]) evs (by
          simpa using hlen)]
      simp [roundSamples, List.zip_cons_cons, List.append_assoc]

theorem pollRound_rangeFault : ∀ (labels : List String) (rs : List Reading)
    (i : Int) (buf : List Sample) (msg : String) (evs : List Event),
    rs.length < labels.length →
    pollRound i labels (roundEvents rs ++ Event.deviceRangeError msg :: evs) buf
      = .rangeFault msg (buf ++ roundSamples i labels rs) := by
  intro labels
  induction labels with
  | nil =>
    intro rs i buf msg evs hlen
    simp at hlen
  | cons l ls ih =>
    intro rs i buf msg evs hlen
    match rs with
    | [] => simp [roundEvents, roundSamples, pollRound]
    | r :: rs' =>
      show pollRound i ls (roundEvents rs' ++ Event.deviceRangeError msg :: evs)
          (buf ++ [mkSample i l r.ts r.power r.volt r.curr]) = _
      rw [ih rs' i (buf ++ [mkSample i l r.ts r.power r.volt r.curr]) msg evs (by
          simpa using hlen)]
      simp [roundSamples, List.zip_cons_cons, List.append_assoc]

/-- Fully completed rounds step the loop: each consumes one unit of fuel,
appends its samples, and increments the run id by exactly one. -/
theorem runRounds_fullRounds (labels : List String) :
    ∀ (rounds : List (List Reading)) (fuel : Nat) (evs : List Event)
      (i : Int) (buf : List Sample),
    (∀ r ∈ rounds, r.length = labels.length) →
    runRounds (rounds.length + fuel) labels
        ((rounds.map roundEvents).flatten ++ evs) i buf
      = runRounds fuel labels evs (i + rounds.length) (buf ++ bufferOf i labels rounds) := by
  intro rounds
  induction rounds with
  | nil =>
    intro fuel evs i buf _
    simp [bufferOf]
  | cons rs rest ih =>
    intro fuel evs i buf hfull
    have hr : rs.length = labels.length := hfull rs (by simp)
    have hrest : ∀ r ∈ rest, r.length = labels.length := by
      intro r hmem
      exact hfull r (by simp [hmem])
    show runRounds (rest.length + 1 + fuel) labels _ i buf = _
    have hfuel : rest.length + 1 + fuel = (rest.length + fuel) + 1 := by omega
    rw [hfuel]
    simp only [List.map_cons, List.flatten_cons, List.append_assoc, runRounds]
    rw [pollRound_full labels rs i buf _ hr]
    show runRounds (rest.length + fuel) labels
        ((List.map roundEvents rest).flatten ++ evs) (i + 1)
        (buf ++ roundSamples i labels rs) = _
    rw [ih fuel evs (i + 1) (buf ++ roundSamples i labels rs) hrest]
    simp only [bufferOf, List.append_assoc]
    congr 1
    simp only [List.length_cons]
    push_cast
    ring

/-- A trace of `N` full rounds then a cancellation at the top of the loop
leaves the loop interrupted with exactly the buffered full rounds. -/
theorem runRounds_traceOfRounds (l : String) (ls : List String)
    (rounds : List (List Reading)) (i : Int)
    (hfull : ∀ r ∈ rounds, r.length = (l :: ls).length) :
    runRounds (rounds.length + 1) (l :: ls) (traceOfRounds rounds) i []
      = .interrupted (bufferOf i (l :: ls) rounds) := by
  unfold traceOfRounds
  rw [runRounds_fullRounds (l :: ls) rounds 1 [Event.keyboardInterrupt] i [] hfull]
  simp only [runRounds, pollRound_interrupt_top, List.nil_append]

/-- Stepping the loop across one full round. -/
theorem runRounds_one_round (labels : List String) (rs : List Reading)
    (fuel : Nat) (evs : List Event) (i : Int) (buf : List Sample)
    (h : rs.length = labels.length) :
    runRounds (fuel + 1) labels (roundEvents rs ++ evs) i buf
      = runRounds fuel labels evs (i + 1) (buf ++ roundSamples i labels rs) := by
  show (match pollRound i labels (roundEvents rs ++ evs) buf with
    | .done evs buf' => runRounds fuel labels evs (i + 1) buf'
    | .interrupted buf' => Outcome.interrupted buf'
    | .rangeFault msg buf' => Outcome.rangeFault msg buf'
    | .starved buf' => Outcome.starved buf') = _
  rw [pollRound_full labels rs i buf evs h]

/-- Every sample a round produces carries that round's run id. -/
theorem roundSamples_run_id (i : Int) (labels : List String)
    (rs : List Reading) : ∀ s ∈ roundSamples i labels rs, s.run_id = i := by
  intro s hs
  unfold roundSamples at hs
  obtain ⟨p, _, rfl⟩ := List.mem_map.mp hs
  rfl

/-- Every sample a round produces stamps `dt` from its own `ts`. -/
theorem roundSamples_dt (i : Int) (labels : List String)
    (rs : List Reading) :
    ∀ s ∈ roundSamples i labels rs, s.dt = convert_to_datetime s.ts := by
  intro s hs
  unfold roundSamples at hs
  obtain ⟨p, _, rfl⟩ := List.mem_map.mp hs
  rfl

/-- The labels of a full round's samples are the registry labels in order. -/
theorem roundSamples_labels : ∀ (labels : List String) (rs : List Reading),
    rs.length = labels.length →
    (roundSamples i labels rs).map (fun s => s.sensor_label) = labels := by
  intro labels
  induction labels with
  | nil =>
    intro rs h
    simp [roundSamples]
  | cons l ls ih =>
    intro rs h
    match rs with
    | r :: rs' =>
      simp only [roundSamples, List.zip_cons_cons, List.map_cons] at *
      exact congrArg (List.cons l) (ih rs' (by simpa using h))

theorem roundSamples_length (i : Int) (labels : List String)
    (rs : List Reading) (h : rs.length = labels.length) :
    (roundSamples i labels rs).length = labels.length := by
  unfold roundSamples
  rw [List.length_map, List.length_zip]
  omega

/-! ### get_test_id on an existing file -/

theorem get_test_id_concat (rows : List Row) (r : Row) :
    get_test_id (some (rows ++ [r])) =
      match pyIntParse (r.headD "") with
      | none => .error (.badIntField (r.headD ""))
      | some n => .ok (n + 1) := by
  show (match (rows ++ [r]).getLast? with
    | none => Except.error LogError.emptyFile
    | some r =>
      match pyIntParse (r.headD "") with
      | none => Except.error (LogError.badIntField (r.headD ""))
      | some n => Except.ok (n + 1)) = _
  rw [List.getLast?_concat]

theorem get_test_id_concat_ok (rows : List Row) (r : Row) (k : Int)
    (h : pyIntParse (r.headD "") = some k) :
    get_test_id (some (rows ++ [r])) = .ok (k + 1) := by
  rw [get_test_id_concat, h]

theorem get_test_id_concat_err (rows : List Row) (r : Row)
    (h : pyIntParse (r.headD "") = none) :
    get_test_id (some (rows ++ [r])) = .error (.badIntField (r.headD "")) := by
  rw [get_test_id_concat, h]

/-! ## Claims -/

/-- C1: `get_test_id` returns 1 when no file exists at the path; when a file
exists whose last row's `run_id` column holds (the decimal rendering of) `N`,
it returns `N + 1`; and a freshly started collector's first round then uses
run id `N + 1`: the loop's first completed round appends samples all stamped
with the returned identifier `N + 1`. -/
theorem c1_resume_identifier :
    get_test_id none = .ok 1 ∧
    (∀ (rows : List Row) (r : Row) (N : Int),
      r.headD "" = intStr N →
      get_test_id (some (rows ++ [r])) = .ok (N + 1)) ∧
    (∀ (rows : List Row) (r : Row) (N : Int) (labels : List String)
       (rs : List Reading) (evs : List Event) (fuel : Nat),
      r.headD "" = intStr N → rs.length = labels.length →
      ∃ i0 : Int, get_test_id (some (rows ++ [r])) = .ok i0 ∧ i0 = N + 1 ∧
        runRounds (fuel + 1) labels (roundEvents rs ++ evs) i0 []
          = runRounds fuel labels evs (i0 + 1) (roundSamples i0 labels rs) ∧
        ∀ s ∈ roundSamples i0 labels rs, s.run_id = N + 1) := by
  refine ⟨rfl, ?_, ?_⟩
  · intro rows r N hr
    exact get_test_id_concat_ok rows r N (by rw [hr, pyIntParse_intStr])
  · intro rows r N labels rs evs fuel hr hlen
    refine ⟨N + 1, get_test_id_concat_ok rows r N (by rw [hr, pyIntParse_intStr]),
      rfl, ?_, roundSamples_run_id (N + 1) labels rs⟩
    simpa using runRounds_one_round labels rs fuel evs (N + 1) [] hlen

theorem c1_resume_identifier_witness :
    (["5"] : Row).headD "" = intStr 5 ∧
    get_test_id (some ([] ++ [["5"]])) = .ok 6 ∧
    (∃ i0 : Int, get_test_id (some ([] ++ [["5"]])) = .ok i0 ∧ i0 = 6 ∧
      runRounds 1 ["a"] (roundEvents [Reading.mk 0 1 2 3] ++ []) i0 []
        = runRounds 0 ["a"] [] (i0 + 1) (roundSamples i0 ["a"] [Reading.mk 0 1 2 3]) ∧
      ∀ s ∈ roundSamples i0 ["a"] [Reading.mk 0 1 2 3], s.run_id = 6) :=
  ⟨by decide, c1_resume_identifier.2.1 [] ["5"] 5 (by decide),
    c1_resume_identifier.2.2 [] ["5"] 5 ["a"] [Reading.mk 0 1 2 3] [] 0
      (by decide) rfl⟩

/-- C2 counterexample: the file `["0"]` (one line containing just `0`)
exists and its final row is not a valid Sample row — it has one field, not
seven — yet `get_test_id` does not fail: it parses the lone field as the
integer 0 and returns 1, silently restarting the numbering. -/
theorem c2_corrupt_row_counterexample :
    sampleRowShapeOk ["0"] = false ∧
    get_test_id (some [["0"]]) = .ok 1 := by
  constructor
  · decide
  · rfl

/-- C2 amended: `get_test_id` validates only the first comma-separated field
of the final row.  It fails (with an uncaught, fatal error) exactly when the
file is empty or that field does not parse as an integer; when the field
parses as `k` it returns `k + 1` without inspecting the rest of the row —
in particular it returns 1, silently restarting numbering, whenever a
corrupt final row's first field parses as `0`. -/
theorem c2_amended_resume_failure :
    (∀ (rows : List Row) (r : Row), pyIntParse (r.headD "") = none →
      get_test_id (some (rows ++ [r])) = .error (.badIntField (r.headD ""))) ∧
    get_test_id (some []) = .error .emptyFile ∧
    (∀ (rows : List Row) (r : Row) (k : Int),
      pyIntParse (r.headD "") = some k →
      get_test_id (some (rows ++ [r])) = .ok (k + 1)) ∧
    (∀ (rows : List Row) (r : Row), pyIntParse (r.headD "") = some 0 →
      get_test_id (some (rows ++ [r])) = .ok 1) := by
  refine ⟨get_test_id_concat_err, rfl, get_test_id_concat_ok, ?_⟩
  intro rows r h
  exact get_test_id_concat_ok rows r 0 h

theorem c2_amended_resume_failure_witness :
    get_test_id (some ([] ++ [["oops", "x"]])) = .error (.badIntField "oops") ∧
    get_test_id (some ([] ++ [["7", "b"]])) = .ok 8 ∧
    get_test_id (some ([] ++ [["0"]])) = .ok 1 :=
  ⟨c2_amended_resume_failure.1 [] ["oops", "x"] (by decide),
    c2_amended_resume_failure.2.2.1 [] ["7", "b"] 7 (by decide),
    c2_amended_resume_failure.2.2.2 [] ["0"] (by decide)⟩

/-- C9: on an existing file `get_test_id` is not total — an empty file hits
the unbound `line` variable (modelled `emptyFile`), and a last line whose
first comma-separated field is not a decimal integer raises `ValueError`
(modelled `badIntField`); in particular a file holding only the header row
fails on the field `"test id"`.  In no such case is an identifier
returned. -/
theorem c9_resume_not_total :
    get_test_id (some []) = .error .emptyFile ∧
    (∀ (rows : List Row) (r : Row), pyIntParse (r.headD "") = none →
      get_test_id (some (rows ++ [r])) = .error (.badIntField (r.headD ""))) ∧
    get_test_id (some [csvHeader]) = .error (.badIntField "test id") := by
  refine ⟨rfl, get_test_id_concat_err, ?_⟩
  rfl

theorem c9_resume_not_total_witness :
    get_test_id (some ([] ++ [["test id", "sensor label"]]))
      = .error (.badIntField "test id") :=
  c9_resume_not_total.2.1 [] ["test id", "sensor label"] (by decide)

/-- C3: when a sensor read raises `DeviceRangeError`, the process exits with
status 1 and `write_to_csv` is never called: the on-disk file is exactly what
it was before the session started (in particular, no buffered rows from the
failing round or any earlier round are written). -/
theorem c3_no_flush_on_fault (labels : List String) (events : List Event)
    (initFile : Option (List Row)) (fuel : Nat) (i0 : Int) (msg : String)
    (buf : List Sample)
    (h0 : get_test_id initFile = .ok i0)
    (h1 : runRounds fuel labels events i0 [] = .rangeFault msg buf) :
    mainRun labels events initFile fuel = .ok (some ⟨1, initFile⟩) := by
  unfold mainRun
  rw [h0]
  show (match runRounds fuel labels events i0 [] with
    | .interrupted buf =>
      Except.ok (some (RunExit.mk 0 (some (write_to_csv csvHeader buf initFile))))
    | .rangeFault _ _ => Except.ok (some (RunExit.mk 1 initFile))
    | .starved _ => Except.ok none) = _
  rw [h1]

theorem c3_no_flush_on_fault_witness :
    mainRun ["a"] [Event.deviceRangeError "over-range"] (some [["1", "x"]]) 1
      = .ok (some ⟨1, some [["1", "x"]]⟩) :=
  c3_no_flush_on_fault ["a"] [Event.deviceRangeError "over-range"]
    (some [["1", "x"]]) 1 2 "over-range" [] rfl rfl

/-- Buffered sample count of `N` full rounds. -/
theorem bufferOf_length (labels : List String) :
    ∀ (rounds : List (List Reading)) (i : Int),
    (∀ r ∈ rounds, r.length = labels.length) →
    (bufferOf i labels rounds).length = rounds.length * labels.length := by
  intro rounds
  induction rounds with
  | nil => intro i _; simp [bufferOf]
  | cons rs rest ih =>
    intro i hfull
    rw [show bufferOf i labels (rs :: rest)
        = roundSamples i labels rs ++ bufferOf (i + 1) labels rest from rfl,
      List.length_append,
      roundSamples_length i labels rs (hfull rs (by simp)),
      ih (i + 1) (fun r hr => hfull r (by simp [hr]))]
    simp only [List.length_cons]
    ring

/-- C4: with `N` rounds completed before the cancellation signal is observed
at the top of the loop, the process flushes once, appending to the existing
contents (or a fresh header) exactly the buffered samples in buffer order —
`N × (number of registered sensors)` data rows — and exits with status 0. -/
theorem c4_flush_on_cancel (l : String) (ls : List String)
    (rounds : List (List Reading)) (initFile : Option (List Row)) (i0 : Int)
    (h0 : get_test_id initFile = .ok i0)
    (hfull : ∀ r ∈ rounds, r.length = (l :: ls).length) :
    mainRun (l :: ls) (traceOfRounds rounds) initFile (rounds.length + 1)
      = .ok (some ⟨0, some (write_to_csv csvHeader
          (bufferOf i0 (l :: ls) rounds) initFile)⟩) ∧
    write_to_csv csvHeader (bufferOf i0 (l :: ls) rounds) initFile
      = fileBase csvHeader initFile
          ++ (bufferOf i0 (l :: ls) rounds).map sampleToRow ∧
    (bufferOf i0 (l :: ls) rounds).length = rounds.length * (l :: ls).length := by
  refine ⟨?_, rfl, bufferOf_length (l :: ls) rounds i0 hfull⟩
  unfold mainRun
  rw [h0]
  show (match runRounds (rounds.length + 1) (l :: ls) (traceOfRounds rounds) i0 [] with
    | .interrupted buf =>
      Except.ok (some (RunExit.mk 0 (some (write_to_csv csvHeader buf initFile))))
    | .rangeFault _ _ => Except.ok (some (RunExit.mk 1 initFile))
    | .starved _ => Except.ok none) = _
  rw [runRounds_traceOfRounds l ls rounds i0 hfull]

theorem c4_flush_on_cancel_witness :
    mainRun ["a", "b"] (traceOfRounds [[Reading.mk 0 1 2 3, Reading.mk 4 5 6 7]]) none 2
      = .ok (some ⟨0, some (write_to_csv csvHeader
          (bufferOf 1 ["a", "b"] [[Reading.mk 0 1 2 3, Reading.mk 4 5 6 7]]) none)⟩) ∧
    (bufferOf 1 ["a", "b"] [[Reading.mk 0 1 2 3, Reading.mk 4 5 6 7]]).length = 1 * 2 := by
  have h := c4_flush_on_cancel "a" ["b"] [[Reading.mk 0 1 2 3, Reading.mk 4 5 6 7]] none 1
    rfl (by decide)
  exact ⟨h.1, h.2.2⟩

/-- C5: a completed round produces exactly one sample per registered sensor,
in registry iteration order, all samples sharing the round's `run_id`, and
the loop increments the identifier exactly once per completed round, however
many sensors are registered. -/
theorem c5_round_atomicity (i : Int) (labels : List String)
    (rs : List Reading) (evs : List Event) (buf : List Sample) (fuel : Nat)
    (h : rs.length = labels.length) :
    pollRound i labels (roundEvents rs ++ evs) buf
      = .done evs (buf ++ roundSamples i labels rs) ∧
    (roundSamples i labels rs).length = labels.length ∧
    (roundSamples i labels rs).map (fun s => s.sensor_label) = labels ∧
    (∀ s ∈ roundSamples i labels rs, s.run_id = i) ∧
    runRounds (fuel + 1) labels (roundEvents rs ++ evs) i buf
      = runRounds fuel labels evs (i + 1) (buf ++ roundSamples i labels rs) :=
  ⟨pollRound_full labels rs i buf evs h,
    roundSamples_length i labels rs h,
    roundSamples_labels labels rs h,
    roundSamples_run_id i labels rs,
    runRounds_one_round labels rs fuel evs i buf h⟩

theorem c5_round_atomicity_witness :
    pollRound 3 ["a", "b"] (roundEvents [Reading.mk 0 1 2 3, Reading.mk 4 5 6 7] ++ []) []
      = .done [] ([] ++ roundSamples 3 ["a", "b"] [Reading.mk 0 1 2 3, Reading.mk 4 5 6 7]) ∧
    (roundSamples 3 ["a", "b"] [Reading.mk 0 1 2 3, Reading.mk 4 5 6 7]).length = 2 ∧
    (roundSamples 3 ["a", "b"] [Reading.mk 0 1 2 3, Reading.mk 4 5 6 7]).map
      (fun s => s.sensor_label) = ["a", "b"] := by
  have h := c5_round_atomicity 3 ["a", "b"] [Reading.mk 0 1 2 3, Reading.mk 4 5 6 7] [] [] 0
    (by decide)
  exact ⟨h.1, h.2.1, h.2.2.1⟩

/-- C7 counterexample: with sensors `a` and `b`, the `KeyboardInterrupt`
delivered after sensor `a`'s visit of the first round (CPython raises it
between any two bytecodes, so in particular here) leaves sensor `a`'s
already-appended sample in the buffer; the flush then writes that partial
round, and the file's single data row is not a multiple of the sensor
count 2.  The claim that a signal arriving mid-round leaves no partial
samples in the buffer, and that the flushed row count is always a multiple
of the sensor count, is therefore false. -/
theorem c7_mid_round_counterexample :
    runRounds 1 ["a", "b"] [Event.reading 0 1 2 3, Event.keyboardInterrupt] 1 []
      = .interrupted [mkSample 1 "a" 0 1 2 3] ∧
    mainRun ["a", "b"] [Event.reading 0 1 2 3, Event.keyboardInterrupt] none 1
      = .ok (some ⟨0, some [csvHeader, sampleToRow (mkSample 1 "a" 0 1 2 3)]⟩) ∧
    ¬(2 ∣ [sampleToRow (mkSample 1 "a" 0 1 2 3)].length) :=
  ⟨rfl, rfl, by decide⟩

/-- C7 amended: the cancellation signal may also be observed mid-round; the
samples of the sensor visits that completed before its delivery remain in
the buffer and are flushed, so after `N` full rounds and `k` completed
visits of an interrupted round, the flush appends the `N` full rounds plus
the `k` partial-round samples (the flushed data-row count is the number of
completed visits and need not be a multiple of the sensor count); only a
signal delivered at the top of the loop yields exactly the full rounds. -/
theorem c7_amended_partial_round_flush (l : String) (ls : List String)
    (rounds : List (List Reading)) (part : List Reading)
    (initFile : Option (List Row)) (i0 : Int)
    (h0 : get_test_id initFile = .ok i0)
    (hfull : ∀ r ∈ rounds, r.length = (l :: ls).length)
    (hpart : part.length < (l :: ls).length) :
    mainRun (l :: ls)
        ((rounds.map roundEvents).flatten
          ++ (roundEvents part ++ [Event.keyboardInterrupt]))
        initFile (rounds.length + 1)
      = .ok (some ⟨0, some (write_to_csv csvHeader
          (bufferOf i0 (l :: ls) rounds
            ++ roundSamples (i0 + rounds.length) (l :: ls) part)
          initFile)⟩) := by
  unfold mainRun
  rw [h0]
  show (match runRounds (rounds.length + 1) (l :: ls)
      ((rounds.map roundEvents).flatten
        ++ (roundEvents part ++ [Event.keyboardInterrupt])) i0 [] with
    | .interrupted buf =>
      Except.ok (some (RunExit.mk 0 (some (write_to_csv csvHeader buf initFile))))
    | .rangeFault _ _ => Except.ok (some (RunExit.mk 1 initFile))
    | .starved _ => Except.ok none) = _
  rw [runRounds_fullRounds (l :: ls) rounds 1
    (roundEvents part ++ [Event.keyboardInterrupt]) i0 [] hfull]
  rw [show (1:Nat) = 0 + 1 from rfl, runRounds,
    pollRound_partial (l :: ls) part (i0 + rounds.length)
      ([] ++ bufferOf i0 (l :: ls) rounds) [] hpart]
  simp

theorem c7_amended_partial_round_flush_witness :
    mainRun ["a", "b"]
        (([[Reading.mk 0 1 2 3, Reading.mk 4 5 6 7]].map roundEvents).flatten
          ++ (roundEvents [Reading.mk 8 9 10 11] ++ [Event.keyboardInterrupt]))
        none 2
      = .ok (some ⟨0, some (write_to_csv csvHeader
          (bufferOf 1 ["a", "b"] [[Reading.mk 0 1 2 3, Reading.mk 4 5 6 7]]
            ++ roundSamples (1 + 1) ["a", "b"] [Reading.mk 8 9 10 11])
          none)⟩) := by
  have h := c7_amended_partial_round_flush "a" ["b"]
    [[Reading.mk 0 1 2 3, Reading.mk 4 5 6 7]] [Reading.mk 8 9 10 11] none 1 rfl
    (by decide) (by decide)
  simpa using h

/-! ### Header idempotence -/

/-- Number of header rows in a file. -/
def countHeader (rows : List Row) : Nat :=
  rows.countP (fun r => r == csvHeader)

theorem intStr_ne_testid (i : Int) : intStr i ≠ "test id" := by
  intro h
  unfold intStr at h
  split_ifs at h
  · have h2 : '-' :: natChars i.natAbs = "test id".data := congrArg String.data h
    have h3 : ('-' :: natChars i.natAbs).headD 'z' = ("test id".data).headD 'z' :=
      congrArg (fun l => l.headD 'z') h2
    exact absurd (show ('-' : Char) = 't' from h3) (by decide)
  · have h2 : natChars i.natAbs = "test id".data := congrArg String.data h
    have h4 : 't' ∈ natChars i.natAbs := by
      rw [h2]
      decide
    have h5 := (List.all_eq_true.mp (natChars_all_digit i.natAbs)) 't' h4
    exact absurd h5 (by decide)

theorem sampleToRow_ne_header (s : Sample) : (sampleToRow s == csvHeader) = false := by
  rw [beq_eq_false_iff_ne]
  intro h
  have : intStr s.run_id = "test id" := by
    have := congrArg (fun r => List.headD r "") h
    simpa [sampleToRow, csvHeader] using this
  exact intStr_ne_testid s.run_id this

theorem countHeader_append_samples (rows : List Row) (samples : List Sample) :
    countHeader (rows ++ samples.map sampleToRow) = countHeader rows := by
  unfold countHeader
  rw [List.countP_append]
  have : List.countP (fun r => r == csvHeader) (samples.map sampleToRow) = 0 := by
    rw [List.countP_eq_zero]
    intro r hr
    obtain ⟨s, _, rfl⟩ := List.mem_map.mp hr
    simp [sampleToRow_ne_header s]
  omega

/-- C6: starting from a path with no file, any nonempty sequence of
`write_to_csv` calls yields a file with exactly one header row: the first
call creates the file and writes the header, and every later call, seeing
the file exist, appends data rows only, never rewriting or duplicating the
header. -/
theorem c6_header_idempotent :
    (∀ (b : List Sample) (bs : List (List Sample)),
      countHeader (bs.foldl (fun rows batch => write_to_csv csvHeader batch (some rows))
        (write_to_csv csvHeader b none)) = 1) ∧
    (∀ (rows : List Row) (samples : List Sample),
      countHeader (write_to_csv csvHeader samples (some rows)) = countHeader rows) := by
  constructor
  · intro b bs
    have hstep : ∀ (bs : List (List Sample)) (rows : List Row),
        countHeader (bs.foldl
          (fun rows batch => write_to_csv csvHeader batch (some rows)) rows)
          = countHeader rows := by
      intro bs
      induction bs with
      | nil => intro rows; rfl
      | cons batch rest ih =>
        intro rows
        rw [List.foldl_cons, ih]
        exact countHeader_append_samples rows batch
    rw [hstep]
    show countHeader ([csvHeader] ++ b.map sampleToRow) = 1
    rw [countHeader_append_samples [csvHeader] b]
    rfl
  · intro rows samples
    exact countHeader_append_samples rows samples

/-- C8: the header row carries exactly the seven fixed column names; every
data row lists its sample's fields in the fixed order (test id, sensor
label, timestamp epoch sec, timestamp datetime, power mW, supply voltage V,
current mA); the datetime column of every sample a round produces is
computed from that sample's own epoch timestamp by `convert_to_datetime`;
and for every representable timestamp that string has the exact shape
`YYYY-MM-DDTHH:MM:SS.ffffff` with a six-digit (microsecond) fraction. -/
theorem c8_column_order_and_datetime :
    csvHeader = ["test id", "sensor label", "timestamp epoch sec",
      "timestamp datetime", "power mW", "supply voltage V", "current mA"] ∧
    (∀ (i : Int) (labels : List String) (rs : List Reading),
      ∀ s ∈ roundSamples i labels rs,
        sampleToRow s = [intStr s.run_id, s.sensor_label, tsFieldStr s.ts,
          s.dt, pyFloatStr s.power, pyFloatStr s.supply_volt,
          pyFloatStr s.current] ∧
        s.dt = convert_to_datetime s.ts) ∧
    (∀ ts : Nat, ts ≤ maxTsMicro → IsoShape (convert_to_datetime ts)) := by
  refine ⟨rfl, ?_, fun ts hts => isoShape_convert_to_datetime hts⟩
  intro i labels rs s hs
  exact ⟨rfl, roundSamples_dt i labels rs s hs⟩

theorem c8_column_order_and_datetime_witness :
    IsoShape (convert_to_datetime 0) ∧
    (mkSample 1 "a" 0 1 2 3).dt
      = convert_to_datetime (mkSample 1 "a" 0 1 2 3).ts :=
  ⟨c8_column_order_and_datetime.2.2 0 (by decide),
    (c8_column_order_and_datetime.2.1 1 ["a"] [Reading.mk 0 1 2 3]
      (mkSample 1 "a" 0 1 2 3) (by decide)).2⟩

/-! ### Registry lemmas -/

theorem any_fst_eq (m : List (String × INA219)) (k : String) :
    (m.any (fun p => p.1 = k)) = true ↔ k ∈ m.map Prod.fst := by
  rw [List.any_eq_true]
  constructor
  · rintro ⟨p, hp, he⟩
    rw [decide_eq_true_eq] at he
    exact List.mem_map.mpr ⟨p, hp, he⟩
  · intro hk
    obtain ⟨p, hp, he⟩ := List.mem_map.mp hk
    exact ⟨p, hp, by rw [decide_eq_true_eq]; exact he⟩

theorem dictInsert_keys (m : List (String × INA219)) (k : String) (v : INA219) :
    (dictInsert m k v).map Prod.fst =
      if k ∈ m.map Prod.fst then m.map Prod.fst
      else m.map Prod.fst ++ [k] := by
  unfold dictInsert
  by_cases hk : k ∈ m.map Prod.fst
  · rw [if_pos ((any_fst_eq m k).mpr hk), if_pos hk, List.map_map]
    refine List.map_congr_left ?_
    intro p _
    by_cases hp : p.1 = k
    · simp [hp]
    · simp [hp]
  · rw [if_neg (fun hany => hk ((any_fst_eq m k).mp hany)), if_neg hk,
      List.map_append]
    rfl

theorem dictInsert_keys_nodup (m : List (String × INA219)) (k : String)
    (v : INA219) (h : (m.map Prod.fst).Nodup) :
    ((dictInsert m k v).map Prod.fst).Nodup := by
  rw [dictInsert_keys]
  split_ifs with hk
  · exact h
  · rw [List.nodup_append]
    exact ⟨h, List.nodup_singleton k, by
      intro x hx hmem
      rw [List.mem_singleton] at hmem
      exact hk (hmem ▸ hx)⟩

theorem dictInsert_mem {m : List (String × INA219)} {k : String}
    {v : INA219} {p : String × INA219} (hp : p ∈ dictInsert m k v) :
    p = (k, v) ∨ (p.1 ≠ k ∧ p ∈ m) := by
  unfold dictInsert at hp
  split at hp
  · obtain ⟨q, hq, he⟩ := List.mem_map.mp hp
    by_cases hqk : q.1 = k
    · left
      rw [← he, if_pos hqk]
    · right
      rw [← he, if_neg hqk]
      exact ⟨hqk, hq⟩
  · rename_i hany
    rcases List.mem_append.mp hp with h | h
    · right
      refine ⟨?_, h⟩
      intro hk
      rw [Bool.not_eq_true, List.any_eq_false] at hany
      exact absurd (by rw [decide_eq_true_eq]; exact hk) (hany p h)
    · left
      simpa using h

theorem dictInsert_length (m : List (String × INA219)) (k : String)
    (v : INA219) :
    (dictInsert m k v).length =
      if k ∈ m.map Prod.fst then m.length else m.length + 1 := by
  unfold dictInsert
  by_cases hk : k ∈ m.map Prod.fst
  · rw [if_pos ((any_fst_eq m k).mpr hk), if_pos hk, List.length_map]
  · rw [if_neg (fun hany => hk ((any_fst_eq m k).mp hany)), if_neg hk,
      List.length_append]
    rfl

theorem lastAddrStr_append_last (done : List (String × String))
    (l a : String) : lastAddrStr (done ++ [(l, a)]) l = some a := by
  unfold lastAddrStr
  rw [List.reverse_append, List.reverse_singleton, List.singleton_append,
    List.find?_cons_of_pos _ (by rw [decide_eq_true_eq])]
  rfl

theorem lastAddrStr_append_ne (done : List (String × String))
    (l a k : String) (h : k ≠ l) :
    lastAddrStr (done ++ [(l, a)]) k = lastAddrStr done k := by
  unfold lastAddrStr
  rw [List.reverse_append, List.reverse_singleton, List.singleton_append,
    List.find?_cons_of_neg _ (by
      rw [decide_eq_true_eq]
      exact fun he => h he.symm)]

/-- Invariant carried through the dict comprehension of `create_ina_map`:
processing `rest` after `done` extends a well-formed accumulator to a
well-formed registry for `done ++ rest`. -/
theorem create_ina_map_aux_spec :
    ∀ (rest : List (String × String)) (acc : List (String × INA219))
      (done : List (String × String)),
    (acc.map Prod.fst).Nodup →
    (∀ k, k ∈ acc.map Prod.fst ↔ k ∈ done.map Prod.fst) →
    (∀ p ∈ acc, ∃ s n, lastAddrStr done p.1 = some s ∧
      pyHexParse s = some n ∧ p.2 = create_ina n) →
    acc.length ≤ done.length →
    (¬(done.map Prod.fst).Nodup → acc.length < done.length) →
    (∀ q ∈ rest, (pyHexParse q.2).isSome) →
    ∃ m, create_ina_map_aux rest acc = .ok m ∧
      (m.map Prod.fst).Nodup ∧
      (∀ k, k ∈ m.map Prod.fst ↔ k ∈ (done ++ rest).map Prod.fst) ∧
      (∀ p ∈ m, ∃ s n, lastAddrStr (done ++ rest) p.1 = some s ∧
        pyHexParse s = some n ∧ p.2 = create_ina n) ∧
      m.length ≤ (done ++ rest).length ∧
      (¬((done ++ rest).map Prod.fst).Nodup →
        m.length < (done ++ rest).length) := by
  intro rest
  induction rest with
  | nil =>
    intro acc done h1 h2 h3 h4 h5 _
    exact ⟨acc, rfl, h1, by simpa using h2, by simpa using h3,
      by simpa using h4, by simpa using h5⟩
  | cons q rest' ih =>
    intro acc done h1 h2 h3 h4 h5 hq
    obtain ⟨l, a⟩ := q
    obtain ⟨n, hn⟩ := Option.isSome_iff_exists.mp (hq (l, a) (by simp))
    have hstep : create_ina_map_aux ((l, a) :: rest') acc
        = create_ina_map_aux rest' (dictInsert acc l (create_ina n)) := by
      show (match pyHexParse a with
        | none => Except.error (ConfigError.badAddress a)
        | some addr =>
          create_ina_map_aux rest' (dictInsert acc l (create_ina addr)))
        = _
      rw [hn]
    rw [List.append_cons done (l, a) rest']
    rw [hstep]
    -- re-establish the invariant for `done ++ [(l, a)]`
    refine ih (dictInsert acc l (create_ina n)) (done ++ [(l, a)])
      (dictInsert_keys_nodup acc l (create_ina n) h1) ?_ ?_ ?_ ?_ ?_
    · intro k
      rw [dictInsert_keys]
      by_cases hl : l ∈ acc.map Prod.fst
      · rw [if_pos hl]
        rw [List.map_append, List.mem_append, h2 k]
        constructor
        · exact fun h => Or.inl h
        · rintro (h | h)
          · exact h
          · rw [List.map_singleton, List.mem_singleton] at h
            exact (h2 k).mp (h ▸ hl)
      · rw [if_neg hl, List.map_append, List.mem_append, List.mem_append,
          h2 k]
        rfl
    · intro p hp
      rcases dictInsert_mem hp with h | ⟨hne, hmem⟩
      · subst h
        exact ⟨a, n, lastAddrStr_append_last done l a, hn, rfl⟩
      · obtain ⟨s, n', hs, hn', hv⟩ := h3 p hmem
        exact ⟨s, n', by rw [lastAddrStr_append_ne done l a p.1 hne]; exact hs,
          hn', hv⟩
    · rw [dictInsert_length, List.length_append]
      split_ifs <;> simp <;> omega
    · intro hnd
      rw [dictInsert_length, List.length_append]
      rw [List.map_append, List.map_singleton] at hnd
      by_cases hl : l ∈ acc.map Prod.fst
      · rw [if_pos hl]
        simp only [List.length_singleton]
        omega
      · rw [if_neg hl]
        simp only [List.length_singleton]
        rw [List.nodup_append] at hnd
        push_neg at hnd
        by_cases hdone : (done.map Prod.fst).Nodup
        · exfalso
          have hdisj : ¬(done.map Prod.fst).Disjoint [l] :=
            hnd hdone (List.nodup_singleton l)
          refine hdisj (fun x hx hxl => ?_)
          rw [List.mem_singleton] at hxl
          subst hxl
          exact absurd ((h2 x).mpr hx) hl
        · have := h5 hdone
          omega
    · intro q hqmem
      exact hq q (by simp [hqmem])

/-- C10: `create_ina_map` raises nothing on duplicate labels: with all
addresses parseable it succeeds, the registry has exactly one entry per
distinct label (keys are duplicate-free and cover exactly the configured
labels), each label is mapped to the handle built from its *last*-occurring
address, and with duplicated labels the registry — hence each round's sample
count — is strictly smaller than the number of configured entries. -/
theorem c10_registry_collapses_duplicates (tests : List (String × String))
    (hok : ∀ q ∈ tests, (pyHexParse q.2).isSome) :
    ∃ m, create_ina_map tests = .ok m ∧
      (m.map Prod.fst).Nodup ∧
      (∀ k, k ∈ m.map Prod.fst ↔ k ∈ tests.map Prod.fst) ∧
      (∀ p ∈ m, ∃ s n, lastAddrStr tests p.1 = some s ∧
        pyHexParse s = some n ∧ p.2 = create_ina n) ∧
      m.length ≤ tests.length ∧
      (¬(tests.map Prod.fst).Nodup → m.length < tests.length) := by
  have h := create_ina_map_aux_spec tests [] [] (by simp) (by simp)
    (by simp) (by simp) (by simp) hok
  simpa using h

theorem c10_registry_collapses_duplicates_witness :
    ∃ m, create_ina_map [("a", "0x40"), ("a", "0x41")] = .ok m ∧
      (m.map Prod.fst).Nodup ∧
      (∀ k, k ∈ m.map Prod.fst ↔
        k ∈ [("a", "0x40"), ("a", "0x41")].map Prod.fst) ∧
      (∀ p ∈ m, ∃ s n,
        lastAddrStr [("a", "0x40"), ("a", "0x41")] p.1 = some s ∧
        pyHexParse s = some n ∧ p.2 = create_ina n) ∧
      m.length ≤ 2 ∧
      (¬([("a", "0x40"), ("a", "0x41")].map Prod.fst).Nodup → m.length < 2) :=
  c10_registry_collapses_duplicates [("a", "0x40"), ("a", "0x41")] (by decide)

end SensorIna219
